import Mathlib

/-!
# Countdown step timer (`script.js`): scheduling, announcements, voice selection

A shallow embedding of the pure core of `script.js`.

Conventions of the embedding:

* JavaScript numbers are modelled by `Int` (timestamps in milliseconds, offsets in seconds);
  the embedding is exact for whole numbers in the safe-integer range.  `NaN` results of
  `parseInt` are modelled by `none`.
* The globals `state`, `steps` and `announcedStepIds` are gathered in `AppState`, which every
  function reading them receives explicitly; `Date.now()` is the explicit argument `now` of
  the function that calls it (`renderSteps`, whose calls of `getStepStatus` each read the
  clock, receives one reading per call).
* `state.target` is represented by the instant it denotes: `none` when no target is stored,
  `some t` when the stored string denotes `t` milliseconds since the epoch.  A stored string
  that is no date (time value `NaN`) is outside the model; every guard `!targetMs` treats it
  like `null`.
* A JavaScript `Set` of strings is a duplicate-free `List String` in insertion order.
* `Array.prototype.sort` is a stable sort; it is modelled by a stable insertion sort.
* The DOM and the speech engine are effects: `speak` calls are returned as a log.
-/

namespace EclipseTimer

/-! ## Data model -/

/-- A step object.  Objects in `steps` carry `id`, `label` and `offsetSeconds`; a legacy record
may carry `minutesBefore` instead.  An absent numeric field is `none`; an absent label is `""`
(both are falsy in `step.label || ...`). -/
structure Step where
  id : String
  label : String
  offsetSeconds : Option Int
  minutesBefore : Option Int
deriving DecidableEq, Repr

/-- The globals read by the scheduling code: `state.target`, `steps`, `announcedStepIds`. -/
structure AppState where
  target : Option Int
  steps : List Step
  announcedStepIds : List String
deriving DecidableEq, Repr

/-- A call `speak(text)` made while announcing the step `stepId`. -/
structure Utterance where
  stepId : String
  text : String
deriving DecidableEq, Repr

/-- The three CSS status classes of a rendered step. -/
inductive StepStatus where
  | past
  | current
  | future
deriving DecidableEq, Repr

/-- What `updateCountdown` writes into the countdown element. -/
structure CountdownDisplay where
  textContent : String
  className : String
deriving DecidableEq, Repr

/-- A `SpeechSynthesisVoice` of the cached catalog. -/
structure Voice where
  lang : String
  name : String
  voiceURI : String
  default : Bool
  localService : Bool
deriving DecidableEq, Repr

/-! ## JavaScript built-ins used by the script -/

/-- `String.prototype.padStart(targetLength, fill)` for a one-character `fill`. -/
def padStart (s : String) (targetLength : Nat) (fill : Char) : String :=
  String.mk (List.replicate (targetLength - s.length) fill) ++ s

/-- `s.split('-')[0]`: the text before the first `'-'` (all of `s` when there is none). -/
def splitDashFirst (s : String) : String :=
  String.mk (s.data.takeWhile (fun c => c != '-'))

/-- `s.startsWith(p)`. -/
def startsWith (s p : String) : Bool :=
  p.data.isPrefixOf s.data

/-- `Set.prototype.has`. -/
def setHas (s : List String) (x : String) : Bool :=
  s.contains x

/-- `Set.prototype.add`: no effect on a member, otherwise appended in insertion order. -/
def setAdd (s : List String) (x : String) : List String :=
  if s.contains x then s else s ++ [x]

/-- Truthiness of the value returned by `getTargetMs()`: `null` and the number `0` are falsy. -/
def truthyMs : Option Int → Bool
  | none => false
  | some t => t != 0

/-! ## Step model -/

/-- `getStepOffsetSeconds(step)`. -/
def getStepOffsetSeconds (step : Step) : Int :=
  match step.offsetSeconds with
  | some n => n
  | none =>
    match step.minutesBefore with
    | some m => m * 60
    | none => 0

/-- `getStepOffsetMs(step)`. -/
def getStepOffsetMs (step : Step) : Int :=
  getStepOffsetSeconds step * 1000

/-- `formatStepOffsetForSpeech(step)`; `Math.floor(x / 60)` is floor division and `%` is the
truncating remainder. -/
def formatStepOffsetForSpeech (step : Step) : String :=
  let totalSeconds := getStepOffsetSeconds step
  let minutes := Int.fdiv totalSeconds 60
  let seconds := Int.tmod totalSeconds 60
  if seconds = 0 then toString minutes ++ " minutes"
  else if minutes = 0 then toString seconds ++ " seconds"
  else toString minutes ++ " minutes " ++ toString seconds ++ " seconds"

/-- `formatStepOffsetShort(step)`. -/
def formatStepOffsetShort (step : Step) : String :=
  let totalSeconds := getStepOffsetSeconds step
  let minutes := Int.fdiv totalSeconds 60
  let seconds := Int.tmod totalSeconds 60
  if seconds = 0 then toString minutes ++ "m"
  else if minutes = 0 then toString seconds ++ "s"
  else toString minutes ++ "m " ++ padStart (toString seconds) 2 '0' ++ "s"

/-- The comparator `(a, b) => getStepOffsetSeconds(b) - getStepOffsetSeconds(a)` is negative or
zero, so `a` may stay before `b`, exactly when `a` has the larger or an equal offset. -/
def offsetDescending (a b : Step) : Prop :=
  getStepOffsetSeconds b ≤ getStepOffsetSeconds a

instance : DecidableRel offsetDescending :=
  fun a b => inferInstanceAs (Decidable (getStepOffsetSeconds b ≤ getStepOffsetSeconds a))

/-- `arr.sort((a, b) => getStepOffsetSeconds(b) - getStepOffsetSeconds(a))`, a stable sort. -/
def sortSteps (arr : List Step) : List Step :=
  arr.insertionSort offsetDescending

/-! ## Target and announcements -/

/-- `getTargetMs()`: `null` when `state.target` is absent, else its time value. -/
def getTargetMs (st : AppState) : Option Int :=
  st.target

/-- The text handed to `speak` for a due step. -/
def announcementText (step : Step) : String :=
  if step.label = "" then "Step at " ++ formatStepOffsetForSpeech step ++ " before"
  else step.label

/-- The `for (const step of steps)` loop of `checkAndSpeakSteps`, threading the announced set
and returning the `speak` calls in order. -/
def announceLoop (targetMs now : Int) : List Step → List String → List String × List Utterance
  | [], announced => (announced, [])
  | step :: rest, announced =>
    let stepTimeMs := targetMs - getStepOffsetMs step
    if now ≥ stepTimeMs && !setHas announced step.id then
      let r := announceLoop targetMs now rest (setAdd announced step.id)
      (r.1, { stepId := step.id, text := announcementText step } :: r.2)
    else
      announceLoop targetMs now rest announced

/-- `checkAndSpeakSteps()` at clock reading `now`: the new state and the `speak` calls made. -/
def checkAndSpeakSteps (st : AppState) (now : Int) : AppState × List Utterance :=
  match getTargetMs st with
  | none => (st, [])
  | some targetMs =>
    if !truthyMs (some targetMs) then (st, [])
    else
      let r := announceLoop targetMs now st.steps st.announcedStepIds
      ({ st with announcedStepIds := r.1 }, r.2)

/-- The `set-target` click handler; `value` is the content of the date-time input (`none` for
an empty input, else the instant it denotes). -/
def setTargetHandler (st : AppState) (value : Option Int) : AppState :=
  match value with
  | none => st
  | some v => { st with target := some v, announcedStepIds := [] }

/-! ## Countdown presenter -/

/-- `updateCountdown()` at clock reading `now`. -/
def updateCountdown (st : AppState) (now : Int) : CountdownDisplay :=
  match getTargetMs st with
  | none => { textContent := "Set a target time to start", className := "countdown-display future" }
  | some targetMs =>
    if !truthyMs (some targetMs) then
      { textContent := "Set a target time to start", className := "countdown-display future" }
    else
      let diff := targetMs - now
      if diff ≤ 0 then
        { textContent := "Event time reached", className := "countdown-display done" }
      else
        let totalSeconds := Int.fdiv diff 1000
        let hours := Int.fdiv totalSeconds 3600
        let minutes := Int.fdiv (Int.tmod totalSeconds 3600) 60
        let seconds := Int.tmod totalSeconds 60
        let parts : List String := if hours > 0 then [toString hours ++ "h"] else []
        let parts := parts ++ [padStart (toString minutes) 2 '0' ++ "m"]
        let parts := parts ++ [padStart (toString seconds) 2 '0' ++ "s"]
        { textContent := " ".intercalate parts, className := "countdown-display future" }

/-- `getStepStatus(step, sortedSteps)` at clock reading `now`. -/
def getStepStatus (st : AppState) (now : Int) (step : Step) (sortedSteps : List Step) :
    StepStatus :=
  match getTargetMs st with
  | none => StepStatus.future
  | some targetMs =>
    if !truthyMs (some targetMs) then StepStatus.future
    else
      let stepTimeMs := targetMs - getStepOffsetMs step
      if now > stepTimeMs then StepStatus.past
      else
        let nextUpcoming := sortedSteps.find? (fun s => targetMs - getStepOffsetMs s > now)
        match nextUpcoming with
        | none => StepStatus.future
        | some n => if n.id = step.id then StepStatus.current else StepStatus.future

/-- The `sorted.map((step, index) => ...)` of `renderSteps`: each item carries its step and the
status `getStepStatus(step, sorted)` gives it.  `getStepStatus` reads `Date.now()` itself, so
every item has a clock reading of its own: `clock index` is the reading of the call made for
the item at position `index`. -/
def renderItems (st : AppState) (clock : Nat → Int) (sorted : List Step) :
    Nat → List Step → List (Step × StepStatus)
  | _, [] => []
  | index, step :: rest =>
    (step, getStepStatus st (clock index) step sorted)
      :: renderItems st clock sorted (index + 1) rest

/-- The list `renderSteps()` presents: the sorted copy of `steps`, each with its status (the
empty list stands for the empty-state message). -/
def renderSteps (st : AppState) (clock : Nat → Int) : List (Step × StepStatus) :=
  let sorted := sortSteps st.steps
  renderItems st clock sorted 0 sorted

/-! ## Adding a step -/

/-- The `add-step` click handler on the step collection.  `minutes` is the result of
`parseInt(minutesEl.value, 10)` (`none` for `NaN`); `secondsEl` is `none` when the seconds
input is missing, else the result of `parseInt(secondsEl.value, 10)`; `trimmedLabel` is
`(labelEl.value || '').trim()`; `newId` is the fresh id string. -/
def addStepHandler (minutes : Option Int) (secondsEl : Option (Option Int))
    (trimmedLabel newId : String) (steps : List Step) : List Step :=
  let seconds : Option Int :=
    match secondsEl with
    | some parsed => parsed
    | none => some 0
  let safeMinutes : Int := match minutes with
    | none => 0
    | some m => m
  let safeSeconds : Int := match seconds with
    | none => 0
    | some s => s
  if safeMinutes < 0 ∨ safeSeconds < 0 ∨ safeSeconds > 59 then steps
  else
    let totalSeconds := safeMinutes * 60 + safeSeconds
    if totalSeconds ≤ 0 then steps
    else
      let tempStep : Step :=
        { id := "", label := "", offsetSeconds := some totalSeconds, minutesBefore := none }
      let defaultLabel := "Step at " ++ formatStepOffsetShort tempStep ++ " before"
      let label := if trimmedLabel = "" then defaultLabel else trimmedLabel
      sortSteps (steps ++
        [{ id := newId, label := label, offsetSeconds := some totalSeconds,
           minutesBefore := none }])

/-! ## Voice selector -/

/-- `v.voiceURI || v.name`. -/
def voiceIdentifier (v : Voice) : String :=
  if v.voiceURI = "" then v.name else v.voiceURI

/-- The array `forLang` of `selectBestVoice`. -/
def forLang (cachedVoices : List Voice) (langTag : String) : List Voice :=
  let langPrefix := splitDashFirst langTag
  cachedVoices.filter (fun v => startsWith v.lang langPrefix)

/-- `selectBestVoice(langTag, preferredVoiceId)` over the catalog `cachedVoices`; a `null`
preferred id is `none`, and the empty string is falsy as well. -/
def selectBestVoice (cachedVoices : List Voice) (langTag : String)
    (preferredVoiceId : Option String) : Option Voice :=
  let matching := forLang cachedVoices langTag
  let preferred : Option Voice :=
    match preferredVoiceId with
    | none => none
    | some p =>
      if p != "" && !matching.isEmpty then
        matching.find? (fun v => voiceIdentifier v == p)
      else none
  match preferred with
  | some v => some v
  | none =>
    match matching.find? (fun v => v.default) with
    | some v => some v
    | none =>
      match matching.filter (fun v => v.localService) with
      | v :: _ => some v
      | [] =>
        match matching with
        | v :: _ => some v
        | [] =>
          match cachedVoices.find? (fun v => v.default) with
          | some v => some v
          | none => cachedVoices.head?

/-- `getLangTag()` for the stored language code `ttsLang` (`""` when absent). -/
def getLangTag (ttsLang : String) : String :=
  let lang := if ttsLang = "" then "es" else ttsLang
  if lang = "es" then "es-ES" else "en-US"

/-- The one-second timer: consecutive runs of `checkAndSpeakSteps` at the clock readings
`clock`, no other handler running in between; returns the final state and all `speak` calls. -/
def runTicks (st : AppState) : List Int → AppState × List Utterance
  | [] => (st, [])
  | now :: rest =>
    let r := checkAndSpeakSteps st now
    let r2 := runTicks r.1 rest
    (r2.1, r.2 ++ r2.2)

/-- A step with a numeric `offsetSeconds`, as the script stores it. -/
def mkStep (id : String) (offsetSeconds : Int) : Step :=
  { id := id, label := "", offsetSeconds := some offsetSeconds, minutesBefore := none }

/-! ## Vocabulary of the statements -/

/-- The due test of `checkAndSpeakSteps`: `now >= targetMs - offsetSeconds * 1000`. -/
def isDue (targetMs now : Int) (step : Step) : Bool :=
  decide (now ≥ targetMs - getStepOffsetSeconds step * 1000)

/-- A number in `[0, 59]` written with two digits. -/
def twoDigits (x : Int) : String :=
  if x < 10 then "0" ++ toString x else toString x

instance : IsTotal Step offsetDescending :=
  ⟨fun a b => by unfold offsetDescending; omega⟩

instance : IsTrans Step offsetDescending :=
  ⟨fun a b c hab hbc => by unfold offsetDescending at *; omega⟩

/-- The input values after the `NaN`-to-zero substitution of the add-step handler. -/
def safeValue (parsed : Option Int) : Int :=
  match parsed with
  | none => 0
  | some v => v

/-- The parsed seconds input; a missing seconds element counts as `0`. -/
def parsedSeconds (secondsEl : Option (Option Int)) : Option Int :=
  match secondsEl with
  | some parsed => parsed
  | none => some 0

/-- The due time of a step: `targetMs - offsetSeconds * 1000`. -/
def dueTime (targetMs : Int) (step : Step) : Int :=
  targetMs - getStepOffsetSeconds step * 1000

/-- The primary subtag of a language tag: the text before the first `'-'`. -/
def primarySubtag (tag : String) : String :=
  String.mk (tag.data.takeWhile (fun c => c != '-'))

/-- A voice matches the requested language when the primary subtags are equal. -/
def matchesLanguage (langTag : String) (v : Voice) : Bool :=
  primarySubtag v.lang == primarySubtag langTag

/-- The usual form of a language tag: two letters, optionally followed by `-REGION`. -/
def usualTagForm (tag : String) : Bool :=
  match tag.data with
  | [a, b] => a.isAlpha && b.isAlpha
  | a :: b :: c :: _ => a.isAlpha && b.isAlpha && c == '-'
  | _ => false

/-- The first result that exists, in the order listed. -/
def firstSome {α : Type} : List (Option α) → Option α
  | [] => none
  | some a :: _ => some a
  | none :: rest => firstSome rest

/-- The voice among `matching` whose identifier (`voiceURI`, else `name`) equals the preferred
id, when one is supplied; the empty string, the value of the picker's default option, is no
preference. -/
def preferredAmong (matching : List Voice) (preferredVoiceId : Option String) : Option Voice :=
  match preferredVoiceId with
  | some p => if p = "" then none else matching.find? (fun v => voiceIdentifier v == p)
  | none => none

/-- The priority order of the voice selector, over primary-subtag matching. -/
def selectBestVoiceSpec (catalog : List Voice) (langTag : String)
    (preferredVoiceId : Option String) : Option Voice :=
  let matching := catalog.filter (matchesLanguage langTag)
  firstSome
    [ preferredAmong matching preferredVoiceId,
      matching.find? (fun v => v.default),
      matching.find? (fun v => v.localService),
      matching.head?,
      catalog.find? (fun v => v.default),
      catalog.head? ]

/-! ## Short-form offset formatting -/

/-- Padding a seconds value in `[0, 59]` to two digits prefixes `0` exactly below ten. -/
theorem padStart_two_digits (s : Int) (h0 : 0 ≤ s) (h1 : s < 60) :
    padStart (toString s) 2 '0' = if s < 10 then "0" ++ toString s else toString s := by
  interval_cases s <;> decide

/-- The short form only depends on the offset in seconds. -/
theorem formatStepOffsetShort_of_offset (step : Step) (n : Int)
    (hoff : step.offsetSeconds = some n) :
    formatStepOffsetShort step = formatStepOffsetShort (mkStep "" n) := by
  simp [formatStepOffsetShort, getStepOffsetSeconds, hoff, mkStep]

/-- C7: for a step whose `offsetSeconds` is an integer `n ≥ 1`, with `m = ⌊n/60⌋` and
`s = n mod 60`, `formatStepOffsetShort` returns `<m>m` when `s = 0`, `<s>s` when `m = 0`, and
otherwise `<m>m <ss>s` where the seconds get a leading `0` exactly when `s < 10`; offsets 90, 60,
45 and 65 give `1m 30s`, `1m`, `45s` and `1m 05s`. -/
theorem formatStepOffsetShort_spec (step : Step) (n : Int)
    (hoff : step.offsetSeconds = some n) (hn : 1 ≤ n) :
    formatStepOffsetShort step =
        (if n % 60 = 0 then toString (n / 60) ++ "m"
         else if n / 60 = 0 then toString (n % 60) ++ "s"
         else toString (n / 60) ++ "m "
            ++ (if n % 60 < 10 then "0" ++ toString (n % 60) else toString (n % 60)) ++ "s")
      ∧ (n = 90 → formatStepOffsetShort step = "1m 30s")
      ∧ (n = 60 → formatStepOffsetShort step = "1m")
      ∧ (n = 45 → formatStepOffsetShort step = "45s")
      ∧ (n = 65 → formatStepOffsetShort step = "1m 05s") := by
  rw [formatStepOffsetShort_of_offset step n hoff]
  refine ⟨?_, ?_, ?_, ?_, ?_⟩
  · have hdiv : Int.fdiv n 60 = n / 60 := Int.fdiv_eq_ediv n (by norm_num)
    have hmod : Int.tmod n 60 = n % 60 := Int.tmod_eq_emod (by omega) (by norm_num)
    have hpad := padStart_two_digits (n % 60) (by omega) (by omega)
    simp only [formatStepOffsetShort, getStepOffsetSeconds, mkStep, hdiv, hmod, hpad]
  · rintro rfl; decide
  · rintro rfl; decide
  · rintro rfl; decide
  · rintro rfl; decide

/-- Witness for C7 at a step of 65 seconds. -/
theorem formatStepOffsetShort_spec_witness :
    (mkStep "s1" 65).offsetSeconds = some 65 ∧ (1 : Int) ≤ 65 ∧
      formatStepOffsetShort (mkStep "s1" 65) = "1m 05s" :=
  ⟨rfl, by decide,
    (formatStepOffsetShort_spec (mkStep "s1" 65) 65 rfl (by decide)).2.2.2.2 rfl⟩

/-! ## At-most-once announcements -/

theorem mem_setAdd (s : List String) (x y : String) :
    y ∈ setAdd s x ↔ y ∈ s ∨ y = x := by
  unfold setAdd
  split
  · rename_i h
    have hx : x ∈ s := by simpa using h
    constructor
    · intro hy; exact Or.inl hy
    · rintro (hy | rfl)
      · exact hy
      · exact hx
  · simp

/-- One pass of the loop: the ids spoken are pairwise distinct, none was announced before, all
are announced afterwards, and the announced set only grows. -/
theorem announceLoop_fresh (targetMs now : Int) (steps : List Step) :
    ∀ announced : List String,
      ((announceLoop targetMs now steps announced).2.map Utterance.stepId).Nodup ∧
      (∀ u ∈ (announceLoop targetMs now steps announced).2,
        u.stepId ∉ announced ∧ u.stepId ∈ (announceLoop targetMs now steps announced).1) ∧
      (∀ id ∈ announced, id ∈ (announceLoop targetMs now steps announced).1) := by
  induction steps with
  | nil => intro announced; simp [announceLoop]
  | cons step rest ih =>
    intro announced
    unfold announceLoop
    by_cases hc : (decide (now ≥ targetMs - getStepOffsetMs step) && !setHas announced step.id) = true
    · obtain ⟨hnd, hlog, hgrow⟩ := ih (setAdd announced step.id)
      have hnot : step.id ∉ announced := by
        simp [setHas] at hc
        exact hc.2
      simp only [hc, if_true]
      refine ⟨?_, ?_, ?_⟩
      · simp only [List.map_cons, List.nodup_cons]
        refine ⟨?_, hnd⟩
        intro hmem
        obtain ⟨u, hu, hid⟩ := List.mem_map.1 hmem
        have := (hlog u hu).1
        rw [hid] at this
        exact this ((mem_setAdd _ _ _).2 (Or.inr rfl))
      · intro u hu
        rcases List.mem_cons.1 hu with rfl | hu
        · exact ⟨hnot, hgrow _ ((mem_setAdd _ _ _).2 (Or.inr rfl))⟩
        · refine ⟨?_, (hlog u hu).2⟩
          intro hin
          exact (hlog u hu).1 ((mem_setAdd _ _ _).2 (Or.inl hin))
      · intro id hid
        exact hgrow id ((mem_setAdd _ _ _).2 (Or.inl hid))
    · simp only [hc]
      exact ih announced

/-- One run of `checkAndSpeakSteps`, in the terms of `announceLoop_fresh`. -/
theorem checkAndSpeakSteps_fresh (st : AppState) (now : Int) :
    ((checkAndSpeakSteps st now).2.map Utterance.stepId).Nodup ∧
    (∀ u ∈ (checkAndSpeakSteps st now).2,
      u.stepId ∉ st.announcedStepIds ∧ u.stepId ∈ (checkAndSpeakSteps st now).1.announcedStepIds) ∧
    (∀ id ∈ st.announcedStepIds, id ∈ (checkAndSpeakSteps st now).1.announcedStepIds) := by
  unfold checkAndSpeakSteps
  cases hT : getTargetMs st with
  | none => simp
  | some t =>
    by_cases h0 : truthyMs (some t) = true
    · simpa [h0] using announceLoop_fresh t now st.steps st.announcedStepIds
    · simp [h0]

/-- Consecutive runs never repeat an id. -/
theorem runTicks_fresh (clock : List Int) :
    ∀ st : AppState,
      ((runTicks st clock).2.map Utterance.stepId).Nodup ∧
      (∀ u ∈ (runTicks st clock).2,
        u.stepId ∉ st.announcedStepIds ∧ u.stepId ∈ (runTicks st clock).1.announcedStepIds) ∧
      (∀ id ∈ st.announcedStepIds, id ∈ (runTicks st clock).1.announcedStepIds) := by
  induction clock with
  | nil => intro st; simp [runTicks]
  | cons now rest ih =>
    intro st
    obtain ⟨hnd1, hlog1, hgrow1⟩ := checkAndSpeakSteps_fresh st now
    obtain ⟨hnd2, hlog2, hgrow2⟩ := ih (checkAndSpeakSteps st now).1
    simp only [runTicks]
    refine ⟨?_, ?_, ?_⟩
    · rw [List.map_append, List.nodup_append]
      refine ⟨hnd1, hnd2, ?_⟩
      intro id h1 h2
      obtain ⟨u, hu, rfl⟩ := List.mem_map.1 h1
      obtain ⟨w, hw, hid⟩ := List.mem_map.1 h2
      have := (hlog2 w hw).1
      rw [hid] at this
      exact this (hlog1 u hu).2
    · intro u hu
      rcases List.mem_append.1 hu with hu | hu
      · exact ⟨(hlog1 u hu).1, hgrow2 _ (hlog1 u hu).2⟩
      · refine ⟨?_, (hlog2 u hu).2⟩
        intro hin
        exact (hlog2 u hu).1 (hgrow1 _ hin)
    · intro id hid
      exact hgrow2 id (hgrow1 id hid)

/-- C1: across any number of consecutive runs of `checkAndSpeakSteps` at arbitrary clock
readings, with no clearing of `announcedStepIds` in between, no step id is announced twice; and
a single run never announces an id that is already in `announcedStepIds`, while every id it
announces is in `announcedStepIds` afterwards. -/
theorem announced_at_most_once (st : AppState) (clock : List Int) (now : Int) :
    ((runTicks st clock).2.map Utterance.stepId).Nodup ∧
    (∀ u ∈ (runTicks st clock).2,
      u.stepId ∉ st.announcedStepIds ∧ u.stepId ∈ (runTicks st clock).1.announcedStepIds) ∧
    ((checkAndSpeakSteps st now).2.map Utterance.stepId).Nodup ∧
    (∀ u ∈ (checkAndSpeakSteps st now).2,
      u.stepId ∉ st.announcedStepIds ∧
        u.stepId ∈ (checkAndSpeakSteps st now).1.announcedStepIds) ∧
    (∀ id ∈ st.announcedStepIds, id ∈ (checkAndSpeakSteps st now).1.announcedStepIds) := by
  obtain ⟨h1, h2, _⟩ := runTicks_fresh clock st
  obtain ⟨h3, h4, h5⟩ := checkAndSpeakSteps_fresh st now
  exact ⟨h1, h2, h3, h4, h5⟩

/-! ## What a run on a fresh tracker announces -/

/-- On steps with distinct ids, none announced yet, the loop speaks exactly the due steps, in
list order, and appends their ids to the announced set. -/
theorem announceLoop_exact (targetMs now : Int) (steps : List Step) :
    ∀ announced : List String, (steps.map Step.id).Nodup →
      (∀ s ∈ steps, s.id ∉ announced) →
      announceLoop targetMs now steps announced =
        (announced ++ (steps.filter (isDue targetMs now)).map Step.id,
         (steps.filter (isDue targetMs now)).map
            (fun s => { stepId := s.id, text := announcementText s })) := by
  induction steps with
  | nil => intro announced _ _; simp [announceLoop]
  | cons step rest ih =>
    intro announced hnd hfresh
    have hnd2 : (rest.map Step.id).Nodup := (List.nodup_cons.1 hnd).2
    have hhead : step.id ∉ rest.map Step.id := (List.nodup_cons.1 hnd).1
    have hstep : step.id ∉ announced := hfresh step (List.mem_cons_self _ _)
    have hhas : setHas announced step.id = false := by
      simpa [setHas] using hstep
    unfold announceLoop
    by_cases hd : isDue targetMs now step = true
    · have hge : now ≥ targetMs - getStepOffsetMs step := by
        simpa [isDue, getStepOffsetMs] using hd
      have hadd : setAdd announced step.id = announced ++ [step.id] := by
        unfold setAdd
        have hcon : announced.contains step.id = false := hhas
        rw [hcon]
        simp
      have hfresh2 : ∀ s ∈ rest, s.id ∉ announced ++ [step.id] := by
        intro s hs hin
        rcases List.mem_append.1 hin with h | h
        · exact hfresh s (List.mem_cons_of_mem _ hs) h
        · have : s.id = step.id := by simpa using h
          exact hhead (this ▸ List.mem_map_of_mem Step.id hs)
      simp only [hge, hhas, hadd, ih _ hnd2 hfresh2, List.filter_cons, hd]
      simp
    · have hlt : ¬ now ≥ targetMs - getStepOffsetMs step := by
        simpa [isDue, getStepOffsetMs] using hd
      have hfresh2 : ∀ s ∈ rest, s.id ∉ announced :=
        fun s hs => hfresh s (List.mem_cons_of_mem _ hs)
      simp only [hlt, ih _ hnd2 hfresh2, List.filter_cons, hd]
      simp

/-- For a target other than the epoch instant: one run on a fresh tracker over steps with
pairwise distinct ids announces exactly the due steps (in list order), so nothing when `now` is
before every due time and every step when `now` is at or after every due time; the set-target
handler produces such a fresh tracker. -/
theorem checkAndSpeakSteps_fresh_tracker (st : AppState) (t now : Int) (ht : t ≠ 0)
    (htarget : st.target = some t) (hfresh : st.announcedStepIds = [])
    (hids : (st.steps.map Step.id).Nodup) :
    (checkAndSpeakSteps st now).2.map Utterance.stepId
        = (st.steps.filter (isDue t now)).map Step.id
      ∧ (checkAndSpeakSteps st now).1.announcedStepIds
        = (st.steps.filter (isDue t now)).map Step.id
      ∧ ((∀ s ∈ st.steps, now < t - getStepOffsetSeconds s * 1000) →
          (checkAndSpeakSteps st now).2 = [])
      ∧ ((∀ s ∈ st.steps, now ≥ t - getStepOffsetSeconds s * 1000) →
          (checkAndSpeakSteps st now).2.map Utterance.stepId = st.steps.map Step.id)
      ∧ (∀ (st0 : AppState), (setTargetHandler st0 (some t)).target = some t ∧
          (setTargetHandler st0 (some t)).announcedStepIds = [] ∧
          (setTargetHandler st0 (some t)).steps = st0.steps) := by
  have hrun : checkAndSpeakSteps st now =
      ({ st with announcedStepIds := (st.steps.filter (isDue t now)).map Step.id },
       (st.steps.filter (isDue t now)).map
          (fun s => { stepId := s.id, text := announcementText s })) := by
    have hl := announceLoop_exact t now st.steps [] hids (by simp)
    simp [checkAndSpeakSteps, getTargetMs, htarget, truthyMs, ht, hfresh, hl]
  refine ⟨?_, ?_, ?_, ?_, ?_⟩
  · rw [hrun]; simp [Function.comp_def]
  · rw [hrun]
  · intro hall
    rw [hrun]
    have : st.steps.filter (isDue t now) = [] := by
      rw [List.filter_eq_nil_iff]
      intro s hs
      have := hall s hs
      simp [isDue]
      omega
    simp [this]
  · intro hall
    rw [hrun]
    have : st.steps.filter (isDue t now) = st.steps := by
      rw [List.filter_eq_self]
      intro s hs
      have := hall s hs
      simpa [isDue] using this
    simp [this, Function.comp_def]
  · intro st0
    simp [setTargetHandler]

/-- Witness: target at 1 000 000 ms, steps at 60 s and 120 s, clock at 900 000 ms. -/
theorem checkAndSpeakSteps_fresh_tracker_witness :
    (checkAndSpeakSteps ⟨some 1000000, [mkStep "a" 60, mkStep "b" 120], []⟩ 900000).2.map
        Utterance.stepId = ["b"] :=
  (checkAndSpeakSteps_fresh_tracker ⟨some 1000000, [mkStep "a" 60, mkStep "b" 120], []⟩
    1000000 900000 (by decide) rfl rfl (by decide)).1.trans (by decide)

/-- C2 (failing input): after the set-target handler stores the epoch instant (time value 0),
a run at the clock reading 1 700 000 000 000 announces nothing although the tracker is fresh
and the 60 s step is due (`now >= 0 - 60 * 1000`): `!targetMs` holds for the number 0. -/
theorem checkAndSpeakSteps_epoch_target :
    (setTargetHandler ⟨none, [mkStep "a" 60], []⟩ (some 0)).target = some 0 ∧
    (setTargetHandler ⟨none, [mkStep "a" 60], []⟩ (some 0)).announcedStepIds = [] ∧
    isDue 0 1700000000000 (mkStep "a" 60) = true ∧
    (checkAndSpeakSteps (setTargetHandler ⟨none, [mkStep "a" 60], []⟩ (some 0))
      1700000000000).2 = [] := by
  decide

/-! ## Countdown decomposition -/

/-- A text ending in the letter `s` is neither of the two fixed messages. -/
theorem ne_messages_of_ends_s (u : String) :
    u ++ "s" ≠ "Set a target time to start" ∧ u ++ "s" ≠ "Event time reached" := by
  constructor
  · intro heq
    have := congrArg (fun x => x.data.getLast?) heq
    simp at this
  · intro heq
    have := congrArg (fun x => x.data.getLast?) heq
    simp at this

/-- With no target stored, `updateCountdown` shows the placeholder. -/
theorem updateCountdown_unset (st : AppState) (now : Int) (htarget : st.target = none) :
    (updateCountdown st now).textContent = "Set a target time to start" := by
  simp [updateCountdown, getTargetMs, htarget]

/-- For a target other than the epoch instant: `Event time reached` is shown exactly when
`now >= target`, the placeholder never, and before the target the text is `[<h>h ]<mm>m <ss>s`
for the unique `h, m, s ≥ 0` with `m, s < 60` and `3600 h + 60 m + s = ⌊(target - now)/1000⌋`,
the hours part being present exactly when `h > 0`. -/
theorem updateCountdown_set (st : AppState) (t now : Int) (htarget : st.target = some t)
    (ht : t ≠ 0) :
    ((updateCountdown st now).textContent = "Event time reached" ↔ now ≥ t) ∧
    (updateCountdown st now).textContent ≠ "Set a target time to start" ∧
    (now < t → ∃ h m s : Int, 0 ≤ h ∧ 0 ≤ m ∧ m < 60 ∧ 0 ≤ s ∧ s < 60 ∧
        3600 * h + 60 * m + s = (t - now) / 1000 ∧
        (updateCountdown st now).textContent =
          (if h > 0 then toString h ++ "h " else "") ++ twoDigits m ++ "m " ++ twoDigits s ++ "s" ∧
        ∀ h2 m2 s2 : Int, 0 ≤ h2 → 0 ≤ m2 → m2 < 60 → 0 ≤ s2 → s2 < 60 →
          3600 * h2 + 60 * m2 + s2 = (t - now) / 1000 → h2 = h ∧ m2 = m ∧ s2 = s) := by
  have key : now < t → ∃ h m s : Int, 0 ≤ h ∧ 0 ≤ m ∧ m < 60 ∧ 0 ≤ s ∧ s < 60 ∧
        3600 * h + 60 * m + s = (t - now) / 1000 ∧
        (updateCountdown st now).textContent =
          (if h > 0 then toString h ++ "h " else "") ++ twoDigits m ++ "m " ++ twoDigits s ++ "s" ∧
        ∀ h2 m2 s2 : Int, 0 ≤ h2 → 0 ≤ m2 → m2 < 60 → 0 ≤ s2 → s2 < 60 →
          3600 * h2 + 60 * m2 + s2 = (t - now) / 1000 → h2 = h ∧ m2 = m ∧ s2 = s := by
    intro hlt
    have hdiff : ¬ (t - now ≤ 0) := by omega
    have htot : Int.fdiv (t - now) 1000 = (t - now) / 1000 := Int.fdiv_eq_ediv _ (by norm_num)
    have htot0 : 0 ≤ (t - now) / 1000 := Int.ediv_nonneg (by omega) (by norm_num)
    generalize hT : (t - now) / 1000 = total at htot htot0
    have hsec : Int.tmod total 60 = total % 60 := Int.tmod_eq_emod htot0 (by norm_num)
    have hrem : Int.tmod total 3600 = total % 3600 := Int.tmod_eq_emod htot0 (by norm_num)
    have hmin : Int.fdiv (total % 3600) 60 = total % 3600 / 60 := Int.fdiv_eq_ediv _ (by norm_num)
    have hhr : Int.fdiv total 3600 = total / 3600 := Int.fdiv_eq_ediv _ (by norm_num)
    have hpm := padStart_two_digits (total % 3600 / 60) (by omega) (by omega)
    have hps := padStart_two_digits (total % 60) (by omega) (by omega)
    refine ⟨total / 3600, total % 3600 / 60, total % 60, by omega, by omega, by omega, by omega,
      by omega, by omega, ?_, ?_⟩
    · simp only [updateCountdown, getTargetMs, htarget, truthyMs, bne_iff_ne, ne_eq, ht,
        not_false_eq_true, decide_True, Bool.not_true, Bool.false_eq_true, if_false, hdiff,
        htot, hsec, hrem, hmin, hhr, hpm, hps, twoDigits]
      by_cases hh : total / 3600 > 0
      · simp [hh, ht, String.intercalate, String.intercalate.go, String.append_assoc]
      · simp [hh, ht, String.intercalate, String.intercalate.go, String.append_assoc]
    · intro h2 m2 s2 _ _ _ _ _ heq
      omega
  refine ⟨?_, ?_, key⟩
  · constructor
    · intro heq
      by_contra hlt
      obtain ⟨h, m, s, _, _, _, _, _, _, htext, _⟩ := key (by omega)
      rw [htext] at heq
      exact (ne_messages_of_ends_s _).2 heq
    · intro hge
      have hdiff : t - now ≤ 0 := by omega
      simp [updateCountdown, getTargetMs, htarget, truthyMs, ht, hdiff]
  · by_cases hge : now ≥ t
    · have hdiff : t - now ≤ 0 := by omega
      simp [updateCountdown, getTargetMs, htarget, truthyMs, ht, hdiff]
    · obtain ⟨h, m, s, _, _, _, _, _, _, htext, _⟩ := key (by omega)
      rw [htext]
      exact (ne_messages_of_ends_s _).1

/-- Witness: one hour, one minute and five seconds before a target at 10 000 000 ms. -/
theorem updateCountdown_set_witness :
    (updateCountdown ⟨some 10000000, [], []⟩ 6335000).textContent ≠ "Set a target time to start" :=
  (updateCountdown_set ⟨some 10000000, [], []⟩ 10000000 6335000 rfl (by decide)).2.1

/-- C9 (failing input): with the epoch instant stored as target (time value 0) and the clock
reading 1 700 000 000 000, `updateCountdown` shows the placeholder of an unset target, not
`Event time reached`: `!targetMs` holds for the number 0. -/
theorem updateCountdown_epoch_target :
    (setTargetHandler ⟨none, [], []⟩ (some 0)).target = some 0 ∧
    (updateCountdown (setTargetHandler ⟨none, [], []⟩ (some 0)) 1700000000000).textContent
      = "Set a target time to start" ∧
    (updateCountdown (setTargetHandler ⟨none, [], []⟩ (some 0)) 1700000000000).textContent
      ≠ "Event time reached" := by
  decide

/-! ## Display ordering and adding steps -/

theorem sortSteps_sorted (arr : List Step) : (sortSteps arr).Sorted offsetDescending :=
  List.sorted_insertionSort offsetDescending arr

theorem sortSteps_perm (arr : List Step) : (sortSteps arr).Perm arr :=
  List.perm_insertionSort offsetDescending arr

theorem renderItems_fst (st : AppState) (clock : Nat → Int) (sorted : List Step) :
    ∀ (l : List Step) (index : Nat),
      (renderItems st clock sorted index l).map Prod.fst = l := by
  intro l
  induction l with
  | nil => intro index; rfl
  | cons a l ih =>
    intro index
    simp [renderItems, ih]

/-- With one clock reading for all calls, the items are the steps with their status at that
reading. -/
theorem renderItems_const (st : AppState) (now : Int) (sorted : List Step) :
    ∀ (l : List Step) (index : Nat),
      renderItems st (fun _ => now) sorted index l
        = l.map (fun step => (step, getStepStatus st now step sorted)) := by
  intro l
  induction l with
  | nil => intro index; rfl
  | cons a l ih =>
    intro index
    simp [renderItems, ih]

theorem renderSteps_fst (st : AppState) (clock : Nat → Int) :
    (renderSteps st clock).map Prod.fst = sortSteps st.steps := by
  simp [renderSteps, renderItems_fst]

/-- The handler either rejects the input, leaving the collection as it is, or appends one step
and sorts. -/
theorem addStepHandler_cases (minutes : Option Int) (secondsEl : Option (Option Int))
    (trimmedLabel newId : String) (steps : List Step) :
    ((safeValue minutes < 0 ∨ safeValue (parsedSeconds secondsEl) < 0 ∨
        59 < safeValue (parsedSeconds secondsEl) ∨
        60 * safeValue minutes + safeValue (parsedSeconds secondsEl) ≤ 0) ∧
      addStepHandler minutes secondsEl trimmedLabel newId steps = steps) ∨
    ((0 ≤ safeValue minutes ∧ 0 ≤ safeValue (parsedSeconds secondsEl) ∧
        safeValue (parsedSeconds secondsEl) ≤ 59 ∧
        0 < 60 * safeValue minutes + safeValue (parsedSeconds secondsEl)) ∧
      ∃ new : Step, new.id = newId ∧
        new.offsetSeconds =
          some (60 * safeValue minutes + safeValue (parsedSeconds secondsEl)) ∧
        addStepHandler minutes secondsEl trimmedLabel newId steps = sortSteps (steps ++ [new])) := by
  by_cases h1 : safeValue minutes < 0 ∨ safeValue (parsedSeconds secondsEl) < 0 ∨
      safeValue (parsedSeconds secondsEl) > 59
  · left
    refine ⟨by omega, ?_⟩
    unfold addStepHandler
    simp only [safeValue, parsedSeconds] at h1
    simp only [h1, if_true]
  · by_cases h2 : safeValue minutes * 60 + safeValue (parsedSeconds secondsEl) ≤ 0
    · left
      refine ⟨by omega, ?_⟩
      unfold addStepHandler
      simp only [safeValue, parsedSeconds] at h1 h2
      simp only [h1, h2, if_true, if_false]
    · right
      refine ⟨by omega, ?_⟩
      refine ⟨⟨newId,
        if trimmedLabel = "" then
          "Step at " ++ formatStepOffsetShort
            ⟨"", "", some (safeValue minutes * 60 + safeValue (parsedSeconds secondsEl)), none⟩
            ++ " before"
        else trimmedLabel,
        some (safeValue minutes * 60 + safeValue (parsedSeconds secondsEl)), none⟩, rfl, ?_, ?_⟩
      · simp only [Option.some.injEq]
        ring
      · unfold addStepHandler
        simp only [safeValue, parsedSeconds] at h1 h2 ⊢
        simp only [h1, h2, if_false]

/-- C8 (counterexample): with the stored collection `[30 s, 300 s]`, which is not in
non-increasing offset order, and both inputs empty, the add-step handler rejects the input and
leaves the collection as it was, so not in non-increasing offset order. -/
theorem addStepHandler_rejected_unsorted :
    addStepHandler none (some none) "" "n1" [mkStep "a" 30, mkStep "b" 300]
      = [mkStep "a" 30, mkStep "b" 300] ∧
    ¬ (addStepHandler none (some none) "" "n1" [mkStep "a" 30, mkStep "b" 300]).Sorted
      (fun a b => getStepOffsetSeconds b ≤ getStepOffsetSeconds a) := by
  refine ⟨by decide, ?_⟩
  have h : addStepHandler none (some none) "" "n1" [mkStep "a" 30, mkStep "b" 300]
      = [mkStep "a" 30, mkStep "b" 300] := by decide
  rw [h]
  simp [List.Sorted, getStepOffsetSeconds, mkStep]

/-- C8 (amended): the list `renderSteps` presents is a permutation of the step collection with
`offsetSeconds` non-increasing from top to bottom, whatever the clock readings; a collection
with offsets `[30, 300, 90]` is rendered with offsets `[300, 90, 30]`.  When the add-step
handler accepts its input (minutes `m ≥ 0`, seconds `s` in `[0, 59]`, `60 m + s > 0`, a
non-numeric input read as `0`), the stored collection becomes the old steps and the new one in
non-increasing offset order; when it rejects the input the collection stays exactly as it was,
in particular in that order if it was in it. -/
theorem renderSteps_descending (st : AppState) (clock : Nat → Int) :
    ((renderSteps st clock).map Prod.fst).Perm st.steps ∧
    ((renderSteps st clock).map Prod.fst).Sorted
      (fun a b => getStepOffsetSeconds b ≤ getStepOffsetSeconds a) ∧
    (st.steps.map getStepOffsetSeconds = [30, 300, 90] →
      (renderSteps st clock).map (fun p => getStepOffsetSeconds p.1) = [300, 90, 30]) ∧
    (∀ (minutes : Option Int) (secondsEl : Option (Option Int)) (trimmedLabel newId : String),
      (0 ≤ safeValue minutes → 0 ≤ safeValue (parsedSeconds secondsEl) →
        safeValue (parsedSeconds secondsEl) ≤ 59 →
        0 < 60 * safeValue minutes + safeValue (parsedSeconds secondsEl) →
        (addStepHandler minutes secondsEl trimmedLabel newId st.steps).Sorted
            (fun a b => getStepOffsetSeconds b ≤ getStepOffsetSeconds a) ∧
          ∃ new : Step, new.id = newId ∧
            new.offsetSeconds =
              some (60 * safeValue minutes + safeValue (parsedSeconds secondsEl)) ∧
            (addStepHandler minutes secondsEl trimmedLabel newId st.steps).Perm
              (st.steps ++ [new])) ∧
      ((safeValue minutes < 0 ∨ safeValue (parsedSeconds secondsEl) < 0 ∨
          59 < safeValue (parsedSeconds secondsEl) ∨
          60 * safeValue minutes + safeValue (parsedSeconds secondsEl) ≤ 0) →
        addStepHandler minutes secondsEl trimmedLabel newId st.steps = st.steps) ∧
      (st.steps.Sorted (fun a b => getStepOffsetSeconds b ≤ getStepOffsetSeconds a) →
        (addStepHandler minutes secondsEl trimmedLabel newId st.steps).Sorted
          (fun a b => getStepOffsetSeconds b ≤ getStepOffsetSeconds a))) := by
  have hperm : ((renderSteps st clock).map Prod.fst).Perm st.steps := by
    rw [renderSteps_fst]; exact sortSteps_perm _
  have hsorted : ((renderSteps st clock).map Prod.fst).Sorted
      (fun a b => getStepOffsetSeconds b ≤ getStepOffsetSeconds a) := by
    rw [renderSteps_fst]; exact sortSteps_sorted _
  refine ⟨hperm, hsorted, ?_, ?_⟩
  · intro hoff
    have hmap : (renderSteps st clock).map (fun p => getStepOffsetSeconds p.1)
        = ((renderSteps st clock).map Prod.fst).map getStepOffsetSeconds := by
      simp [Function.comp_def]
    rw [hmap]
    have hp : (((renderSteps st clock).map Prod.fst).map getStepOffsetSeconds).Perm
        [300, 90, 30] := by
      refine ((hperm.map getStepOffsetSeconds).trans ?_)
      rw [hoff]
      decide
    have hs : (((renderSteps st clock).map Prod.fst).map getStepOffsetSeconds).Sorted
        (fun x y : Int => y ≤ x) := by
      have := hsorted
      unfold List.Sorted at this ⊢
      rw [List.pairwise_map]
      exact this
    haveI : IsAntisymm Int (fun x y : Int => y ≤ x) := ⟨fun a b h1 h2 => by omega⟩
    exact List.eq_of_perm_of_sorted hp hs (by decide)
  · intro minutes secondsEl trimmedLabel newId
    rcases addStepHandler_cases minutes secondsEl trimmedLabel newId st.steps with
      ⟨hbad, hrej⟩ | ⟨hok, new, hid, hnew, hacc⟩
    · refine ⟨?_, fun _ => hrej, ?_⟩
      · intro h1 h2 h3 h4
        omega
      · intro h
        rw [hrej]
        exact h
    · refine ⟨?_, ?_, ?_⟩
      · intro _ _ _ _
        exact ⟨hacc ▸ sortSteps_sorted _, new, hid, hnew, hacc ▸ sortSteps_perm _⟩
      · intro hbad
        omega
      · intro _
        rw [hacc]
        exact sortSteps_sorted _

/-- Witness for C8 (amended): three stored steps with offsets 30, 300 and 90 seconds, to which
one minute and thirty seconds are added. -/
theorem renderSteps_descending_witness :
    (renderSteps ⟨some 5000000, [mkStep "a" 30, mkStep "b" 300, mkStep "c" 90], []⟩
        (fun i => 1000 * i)).map (fun p => getStepOffsetSeconds p.1) = [300, 90, 30] ∧
    (addStepHandler (some 1) (some (some 30)) "" "n4"
        [mkStep "a" 30, mkStep "b" 300, mkStep "c" 90]).Sorted
      (fun a b => getStepOffsetSeconds b ≤ getStepOffsetSeconds a) :=
  ⟨(renderSteps_descending ⟨some 5000000, [mkStep "a" 30, mkStep "b" 300, mkStep "c" 90], []⟩
      (fun i => 1000 * i)).2.2.1 (by decide),
    ((renderSteps_descending ⟨some 5000000, [mkStep "a" 30, mkStep "b" 300, mkStep "c" 90], []⟩
      (fun i => 1000 * i)).2.2.2 (some 1) (some (some 30)) "" "n4").1
      (by decide) (by decide) (by decide) (by decide) |>.1⟩

/-- C6 (counterexample): a non-numeric minutes input together with `30` in the seconds input
does not leave the collection unchanged; a step of 30 seconds is created. -/
theorem addStepHandler_nonNumeric_minutes :
    addStepHandler none (some (some 30)) "" "n1" []
      = [{ id := "n1", label := "Step at 30s before", offsetSeconds := some 30,
           minutesBefore := none }] ∧
    addStepHandler none (some (some 30)) "" "n1" [] ≠ [] := by
  decide

/-- C6 (amended): a non-numeric input counts as `0`.  With `m` and `s` the minutes and seconds
so obtained, the handler leaves the collection unchanged when `m < 0`, `s` is outside
`[0, 59]` or `60 m + s ≤ 0` (in particular when both inputs are non-numeric); otherwise it adds
exactly one new step, with `offsetSeconds = 60 m + s`, and keeps every existing step; it never
adds a step with `offsetSeconds ≤ 0`. -/
theorem addStepHandler_validation (minutes : Option Int) (secondsEl : Option (Option Int))
    (trimmedLabel newId : String) (steps : List Step) :
    ((safeValue minutes < 0 ∨ safeValue (parsedSeconds secondsEl) < 0 ∨
        59 < safeValue (parsedSeconds secondsEl) ∨
        60 * safeValue minutes + safeValue (parsedSeconds secondsEl) ≤ 0) →
      addStepHandler minutes secondsEl trimmedLabel newId steps = steps) ∧
    (minutes = none → parsedSeconds secondsEl = none →
      addStepHandler minutes secondsEl trimmedLabel newId steps = steps) ∧
    (0 ≤ safeValue minutes → 0 ≤ safeValue (parsedSeconds secondsEl) →
      safeValue (parsedSeconds secondsEl) ≤ 59 →
      0 < 60 * safeValue minutes + safeValue (parsedSeconds secondsEl) →
      ∃ new : Step, new.id = newId ∧
        new.offsetSeconds =
          some (60 * safeValue minutes + safeValue (parsedSeconds secondsEl)) ∧
        (addStepHandler minutes secondsEl trimmedLabel newId steps).Perm (steps ++ [new])) ∧
    (∀ x ∈ addStepHandler minutes secondsEl trimmedLabel newId steps,
      x ∈ steps ∨ 0 < getStepOffsetSeconds x) := by
  rcases addStepHandler_cases minutes secondsEl trimmedLabel newId steps with
    ⟨hbad, hrej⟩ | ⟨hok, new, hid, hoff, hacc⟩
  · refine ⟨fun _ => hrej, fun _ _ => hrej, ?_, ?_⟩
    · intro h1 h2 h3 h4
      omega
    · intro x hx
      rw [hrej] at hx
      exact Or.inl hx
  · refine ⟨?_, ?_, ?_, ?_⟩
    · intro hbad
      omega
    · intro hm hs
      rw [hm, hs] at hok
      simp [safeValue] at hok
    · intro _ _ _ _
      exact ⟨new, hid, hoff, hacc ▸ sortSteps_perm _⟩
    · intro x hx
      rw [hacc] at hx
      have hx2 := (sortSteps_perm _).mem_iff.1 hx
      rcases List.mem_append.1 hx2 with h | h
      · exact Or.inl h
      · right
        have hxn : x = new := by simpa using h
        rw [hxn]
        simp only [getStepOffsetSeconds, hoff]
        omega

/-- Witness for C6: two minutes and five seconds are added to a collection of one step, and
two minutes and seventy-five seconds are rejected. -/
theorem addStepHandler_validation_witness :
    (∃ new : Step, new.id = "n2" ∧ new.offsetSeconds = some (60 * 2 + 5) ∧
      (addStepHandler (some 2) (some (some 5)) "" "n2" [mkStep "a" 300]).Perm
        ([mkStep "a" 300] ++ [new])) ∧
    addStepHandler (some 2) (some (some 75)) "" "n3" [mkStep "a" 300] = [mkStep "a" 300] :=
  ⟨(addStepHandler_validation (some 2) (some (some 5)) "" "n2" [mkStep "a" 300]).2.2.1
      (by decide) (by decide) (by decide) (by decide),
    (addStepHandler_validation (some 2) (some (some 75)) "" "n3" [mkStep "a" 300]).1
      (by decide)⟩

/-! ## Step status -/

/-- In a list ordered by `r`, what `find?` returns comes before every other element that
satisfies the predicate. -/
theorem find_first_of_sorted {α : Type} (r : α → α → Prop) (p : α → Bool) :
    ∀ (l : List α) (n : α), l.Pairwise r → l.find? p = some n →
      ∀ s ∈ l, p s = true → s = n ∨ r n s := by
  intro l
  induction l with
  | nil => intro n _ h; simp at h
  | cons a l ih =>
    intro n hpw hfind s hs hp
    rw [List.pairwise_cons] at hpw
    rw [List.find?_cons] at hfind
    cases hpa : p a with
    | true =>
      rw [hpa] at hfind
      have han : a = n := by simpa using hfind
      rcases List.mem_cons.1 hs with h | h
      · exact Or.inl (h.trans han)
      · exact Or.inr (han ▸ hpw.1 s h)
    | false =>
      rw [hpa] at hfind
      rcases List.mem_cons.1 hs with h | h
      · rw [h, hpa] at hp
        exact absurd hp (by simp)
      · exact ih n hpw.2 hfind s h hp

/-- Filtering a duplicate-free list by a predicate that holds of exactly one member. -/
theorem filter_eq_singleton {α : Type} (p : α → Bool) (c : α) :
    ∀ l : List α, l.Nodup → c ∈ l → (∀ s ∈ l, p s = true ↔ s = c) → l.filter p = [c] := by
  intro l
  induction l with
  | nil => intro _ h; simp at h
  | cons a l ih =>
    intro hnd hc hp
    rw [List.nodup_cons] at hnd
    by_cases hac : a = c
    · have hpa : p a = true := (hp a (List.mem_cons_self _ _)).2 hac
      have hnil : l.filter p = [] := by
        rw [List.filter_eq_nil_iff]
        intro s hs hps
        have hsc : s = c := (hp s (List.mem_cons_of_mem _ hs)).1 hps
        exact hnd.1 (hac ▸ hsc ▸ hs)
      rw [List.filter_cons, hpa, if_pos rfl, hnil, hac]
    · have hpa : ¬ p a = true := fun h => hac ((hp a (List.mem_cons_self _ _)).1 h)
      have hcl : c ∈ l := by
        rcases List.mem_cons.1 hc with h | h
        · exact absurd h.symm hac
        · exact h
      rw [List.filter_cons, if_neg hpa]
      exact ih hnd.2 hcl (fun s hs => hp s (List.mem_cons_of_mem _ hs))

/-- The status computed for a target other than the epoch instant. -/
theorem getStepStatus_eq (st : AppState) (t now : Int) (htarget : st.target = some t)
    (ht : t ≠ 0) (step : Step) (sortedSteps : List Step) :
    getStepStatus st now step sortedSteps =
      if now > dueTime t step then StepStatus.past
      else
        match sortedSteps.find? (fun s => decide (dueTime t s > now)) with
        | none => StepStatus.future
        | some n => if n.id = step.id then StepStatus.current else StepStatus.future := by
  simp [getStepStatus, getTargetMs, htarget, truthyMs, ht, dueTime, getStepOffsetMs]

/-- For a target other than the epoch instant and steps with pairwise distinct ids, in the list
`renderSteps` passes to `getStepStatus`: when some step has a due time later than `now`, exactly
one step is `current`, its due time is later than `now` and it is the earliest such due time;
when no step has a due time later than `now`, no step is `current`. -/
theorem getStepStatus_current (st : AppState) (t now : Int) (htarget : st.target = some t)
    (ht : t ≠ 0) (hids : (st.steps.map Step.id).Nodup) :
    ((∃ s ∈ st.steps, now < dueTime t s) →
      ∃ c ∈ sortSteps st.steps,
        (sortSteps st.steps).filter
            (fun s => decide (getStepStatus st now s (sortSteps st.steps) = StepStatus.current))
          = [c] ∧
        now < dueTime t c ∧
        ∀ s ∈ st.steps, now < dueTime t s → dueTime t c ≤ dueTime t s) ∧
    ((∀ s ∈ st.steps, dueTime t s ≤ now) →
      ∀ s ∈ sortSteps st.steps,
        getStepStatus st now s (sortSteps st.steps) ≠ StepStatus.current) := by
  have hperm := sortSteps_perm st.steps
  have hsorted := sortSteps_sorted st.steps
  have hids2 : ((sortSteps st.steps).map Step.id).Nodup :=
    (hperm.map Step.id).nodup_iff.2 hids
  have hnd : (sortSteps st.steps).Nodup := List.Nodup.of_map _ hids2
  constructor
  · rintro ⟨s0, hs0, hlt0⟩
    have hs0' : s0 ∈ sortSteps st.steps := hperm.mem_iff.2 hs0
    cases hfind : (sortSteps st.steps).find? (fun s => decide (dueTime t s > now)) with
    | none =>
      rw [List.find?_eq_none] at hfind
      have := hfind s0 hs0'
      simp at this
      omega
    | some c =>
      have hc : c ∈ sortSteps st.steps := List.mem_of_find?_eq_some hfind
      have hpc : dueTime t c > now := by simpa using List.find?_some hfind
      refine ⟨c, hc, ?_, hpc, ?_⟩
      · apply filter_eq_singleton _ c _ hnd hc
        intro s hs
        rw [decide_eq_true_iff, getStepStatus_eq st t now htarget ht, hfind]
        constructor
        · intro h
          by_cases hpast : now > dueTime t s
          · simp [hpast] at h
          · simp only [hpast, if_false] at h
            by_cases hid : c.id = s.id
            · exact (List.inj_on_of_nodup_map hids2 hc hs hid).symm
            · simp [hid] at h
        · rintro rfl
          have : ¬ now > dueTime t s := by omega
          simp [this]
      · intro s hs hlt
        have hs' : s ∈ sortSteps st.steps := hperm.mem_iff.2 hs
        rcases find_first_of_sorted offsetDescending _ _ c hsorted hfind s hs'
            (by simpa using hlt) with h | h
        · rw [h]
        · unfold offsetDescending at h
          unfold dueTime
          omega
  · intro hall s hs
    have hfind : (sortSteps st.steps).find? (fun s => decide (dueTime t s > now)) = none := by
      rw [List.find?_eq_none]
      intro x hx
      have := hall x (hperm.mem_iff.1 hx)
      simp
      omega
    rw [getStepStatus_eq st t now htarget ht, hfind]
    by_cases hpast : now > dueTime t s <;> simp [hpast]

/-- Witness: target at 1 000 000 ms, steps at 60 s and 120 s, clock at 900 000 ms. -/
theorem getStepStatus_current_witness :
    ∃ c ∈ sortSteps [mkStep "a" 60, mkStep "b" 120],
      (sortSteps [mkStep "a" 60, mkStep "b" 120]).filter
          (fun s => decide (getStepStatus ⟨some 1000000, [mkStep "a" 60, mkStep "b" 120], []⟩
            900000 s (sortSteps [mkStep "a" 60, mkStep "b" 120]) = StepStatus.current))
        = [c] ∧
      900000 < dueTime 1000000 c ∧
      ∀ s ∈ [mkStep "a" 60, mkStep "b" 120],
        900000 < dueTime 1000000 s → dueTime 1000000 c ≤ dueTime 1000000 s :=
  (getStepStatus_current ⟨some 1000000, [mkStep "a" 60, mkStep "b" 120], []⟩ 1000000 900000 rfl
    (by decide) (by decide)).1 ⟨mkStep "a" 60, by decide, by decide⟩

/-- With the epoch instant as target every status is `future`. -/
theorem getStepStatus_epoch (st : AppState) (now : Int) (htarget : st.target = some 0)
    (step : Step) (sortedSteps : List Step) :
    getStepStatus st now step sortedSteps = StepStatus.future := by
  simp [getStepStatus, getTargetMs, htarget, truthyMs]

/-- C4: for every set target, every clock reading `now` (milliseconds since the epoch, so
`now ≥ 0`) and every list of steps with pairwise distinct ids and offsets `≥ 0`, with
`getStepStatus` given the list sorted by `offsetSeconds` descending as `renderSteps` passes it:
whenever some step has a due time later than `now`, exactly one step has status `current`, its
due time is later than `now` and is the earliest such due time, and a render at that reading
shows exactly that step as `current`; when no due time is later than `now` (all have passed,
or the list is empty) no step is `current`. -/
theorem getStepStatus_unique_current (st : AppState) (t now : Int)
    (htarget : st.target = some t) (hnow : 0 ≤ now)
    (hoffsets : ∀ s ∈ st.steps, 0 ≤ getStepOffsetSeconds s)
    (hids : (st.steps.map Step.id).Nodup) :
    ((∃ s ∈ st.steps, now < dueTime t s) →
      ∃ c ∈ sortSteps st.steps,
        (sortSteps st.steps).filter
            (fun s => decide (getStepStatus st now s (sortSteps st.steps) = StepStatus.current))
          = [c] ∧
        now < dueTime t c ∧
        (∀ s ∈ st.steps, now < dueTime t s → dueTime t c ≤ dueTime t s) ∧
        ((renderSteps st (fun _ => now)).filter
            (fun p => decide (p.2 = StepStatus.current))).map Prod.fst = [c]) ∧
    ((∀ s ∈ st.steps, dueTime t s ≤ now) →
      (∀ s ∈ sortSteps st.steps,
        getStepStatus st now s (sortSteps st.steps) ≠ StepStatus.current) ∧
      (renderSteps st (fun _ => now)).filter (fun p => decide (p.2 = StepStatus.current)) = []) ∧
    (st.steps = [] → renderSteps st (fun _ => now) = []) := by
  have hrender : renderSteps st (fun _ => now) =
      (sortSteps st.steps).map
        (fun step => (step, getStepStatus st now step (sortSteps st.steps))) := by
    simp [renderSteps, renderItems_const]
  have hfilter : ((renderSteps st (fun _ => now)).filter
        (fun p => decide (p.2 = StepStatus.current))).map Prod.fst
      = (sortSteps st.steps).filter
          (fun s => decide (getStepStatus st now s (sortSteps st.steps) = StepStatus.current)) := by
    rw [hrender, List.filter_map, List.map_map]
    simp [Function.comp_def]
  refine ⟨?_, ?_, ?_⟩
  · rintro ⟨s0, hs0, hlt0⟩
    by_cases ht : t = 0
    · subst ht
      have := hoffsets s0 hs0
      unfold dueTime at hlt0
      omega
    · obtain ⟨c, hc, hone, hlt, hmin⟩ :=
        (getStepStatus_current st t now htarget ht hids).1 ⟨s0, hs0, hlt0⟩
      exact ⟨c, hc, hone, hlt, hmin, hfilter.trans hone⟩
  · intro hall
    have hnone : ∀ s ∈ sortSteps st.steps,
        getStepStatus st now s (sortSteps st.steps) ≠ StepStatus.current := by
      by_cases ht : t = 0
      · subst ht
        intro s _
        rw [getStepStatus_epoch st now htarget]
        decide
      · exact (getStepStatus_current st t now htarget ht hids).2 hall
    refine ⟨hnone, ?_⟩
    rw [hrender, List.filter_eq_nil_iff]
    intro p hp
    obtain ⟨s, hs, rfl⟩ := List.mem_map.1 hp
    simpa using hnone s hs
  · intro hempty
    simp [renderSteps, hempty, sortSteps, renderItems]

/-- Witness for C4: with the target at 1 700 000 000 000 ms, steps at 60 s and 120 s and the
clock 90 s before the target, the 60 s step is the one `current` step of the render; with the
epoch instant as target and the same clock no step is `current`. -/
theorem getStepStatus_unique_current_witness :
    (∃ c ∈ sortSteps [mkStep "a" 60, mkStep "b" 120],
      ((renderSteps ⟨some 1700000000000, [mkStep "a" 60, mkStep "b" 120], []⟩
          (fun _ => 1699999910000)).filter
            (fun p => decide (p.2 = StepStatus.current))).map Prod.fst = [c] ∧
      (1699999910000 : Int) < dueTime 1700000000000 c) ∧
    (renderSteps ⟨some 0, [mkStep "a" 60, mkStep "b" 120], []⟩
        (fun _ => 1699999910000)).filter (fun p => decide (p.2 = StepStatus.current)) = [] :=
  ⟨by
      obtain ⟨c, hc, _, hlt, _, hr⟩ :=
        (getStepStatus_unique_current ⟨some 1700000000000, [mkStep "a" 60, mkStep "b" 120], []⟩
          1700000000000 1699999910000 rfl (by decide) (by decide) (by decide)).1
          ⟨mkStep "a" 60, by decide, by decide⟩
      exact ⟨c, hc, hr, hlt⟩,
    ((getStepStatus_unique_current ⟨some 0, [mkStep "a" 60, mkStep "b" 120], []⟩
      0 1699999910000 rfl (by decide) (by decide) (by decide)).2.1 (by decide)).2⟩

/-- C5 (counterexample): with the target at 1 700 000 000 000 ms and `now` 90 s before it, the status
is `current` for the 60 s step and `past` for the 120 s and the 300 s step, not
`past`, `current`, `future`. -/
theorem worked_example_statuses_differ :
    getStepStatus ⟨some 1700000000000, [mkStep "c" 300, mkStep "b" 120, mkStep "a" 60], []⟩
        (1700000000000 - 90 * 1000) (mkStep "a" 60) [mkStep "c" 300, mkStep "b" 120, mkStep "a" 60]
      ≠ StepStatus.past ∧
    getStepStatus ⟨some 1700000000000, [mkStep "c" 300, mkStep "b" 120, mkStep "a" 60], []⟩
        (1700000000000 - 90 * 1000) (mkStep "b" 120) [mkStep "c" 300, mkStep "b" 120, mkStep "a" 60]
      ≠ StepStatus.current ∧
    getStepStatus ⟨some 1700000000000, [mkStep "c" 300, mkStep "b" 120, mkStep "a" 60], []⟩
        (1700000000000 - 90 * 1000) (mkStep "c" 300) [mkStep "c" 300, mkStep "b" 120, mkStep "a" 60]
      ≠ StepStatus.future := by
  decide

/-- C5 (amended): for every set target other than the epoch instant, with three steps of
offsets 60, 120 and 300 seconds, the list sorted by offset descending and
`now = target - 90 s`, `getStepStatus` gives `current` for the 60-second step and `past` for the
120-second and the 300-second step. -/
theorem getStepStatus_example (st : AppState) (t now : Int) (s60 s120 s300 : Step)
    (htarget : st.target = some t) (ht : t ≠ 0)
    (h60 : getStepOffsetSeconds s60 = 60) (h120 : getStepOffsetSeconds s120 = 120)
    (h300 : getStepOffsetSeconds s300 = 300) (hnow : now = t - 90 * 1000) :
    getStepStatus st now s60 [s300, s120, s60] = StepStatus.current ∧
    getStepStatus st now s120 [s300, s120, s60] = StepStatus.past ∧
    getStepStatus st now s300 [s300, s120, s60] = StepStatus.past := by
  subst hnow
  refine ⟨?_, ?_, ?_⟩
  · rw [getStepStatus_eq st t _ htarget ht]
    simp [dueTime, h60, h120, h300, List.find?_cons]
  · rw [getStepStatus_eq st t _ htarget ht]
    simp [dueTime, h120]
  · rw [getStepStatus_eq st t _ htarget ht]
    simp [dueTime, h300]

/-- Witness for C5 (amended) at a target of 1 700 000 000 000 ms. -/
theorem getStepStatus_example_witness :
    getStepStatus ⟨some 1700000000000, [mkStep "c" 300, mkStep "b" 120, mkStep "a" 60], []⟩
        (1700000000000 - 90 * 1000) (mkStep "a" 60) [mkStep "c" 300, mkStep "b" 120, mkStep "a" 60]
      = StepStatus.current ∧
    getStepStatus ⟨some 1700000000000, [mkStep "c" 300, mkStep "b" 120, mkStep "a" 60], []⟩
        (1700000000000 - 90 * 1000) (mkStep "b" 120) [mkStep "c" 300, mkStep "b" 120, mkStep "a" 60]
      = StepStatus.past ∧
    getStepStatus ⟨some 1700000000000, [mkStep "c" 300, mkStep "b" 120, mkStep "a" 60], []⟩
        (1700000000000 - 90 * 1000) (mkStep "c" 300) [mkStep "c" 300, mkStep "b" 120, mkStep "a" 60]
      = StepStatus.past :=
  getStepStatus_example ⟨some 1700000000000, [mkStep "c" 300, mkStep "b" 120, mkStep "a" 60], []⟩
    1700000000000 (1700000000000 - 90 * 1000) (mkStep "a" 60) (mkStep "b" 120) (mkStep "c" 300) rfl
    (by decide) rfl rfl rfl rfl

/-! ## Voice selection -/

theorem head_filter_eq_find {α : Type} (p : α → Bool) (l : List α) :
    (l.filter p).head? = l.find? p := by
  induction l with
  | nil => rfl
  | cons a l ih =>
    by_cases h : p a = true
    · simp [List.filter_cons, List.find?_cons, h]
    · have h2 : p a = false := by simpa using h
      simp [List.filter_cons, List.find?_cons, h2, ih]

/-- The selector as a priority list over the array `forLang`. -/
theorem selectBestVoice_eq_firstSome (cachedVoices : List Voice) (langTag : String)
    (preferredVoiceId : Option String) :
    selectBestVoice cachedVoices langTag preferredVoiceId =
      firstSome
        [ preferredAmong (forLang cachedVoices langTag) preferredVoiceId,
          (forLang cachedVoices langTag).find? (fun v => v.default),
          (forLang cachedVoices langTag).find? (fun v => v.localService),
          (forLang cachedVoices langTag).head?,
          cachedVoices.find? (fun v => v.default),
          cachedVoices.head? ] := by
  unfold selectBestVoice
  generalize forLang cachedVoices langTag = m
  have hpref : (match preferredVoiceId with
        | none => none
        | some p =>
          if (p != "" && !m.isEmpty) = true then m.find? (fun v => voiceIdentifier v == p)
          else none)
      = preferredAmong m preferredVoiceId := by
    unfold preferredAmong
    cases preferredVoiceId with
    | none => rfl
    | some p =>
      by_cases hp : p = ""
      · simp [hp]
      · cases m with
        | nil => simp [hp]
        | cons a l => simp [hp]
  simp only [hpref]
  generalize preferredAmong m preferredVoiceId = pref
  cases pref with
  | some v => simp [firstSome]
  | none =>
    cases hd : m.find? (fun v => v.default) with
    | some v => simp [firstSome]
    | none =>
      rw [← head_filter_eq_find (fun v => v.localService) m]
      cases hl : m.filter (fun v => v.localService) with
      | cons v l => simp [firstSome]
      | nil =>
        cases m with
        | cons v l => simp [firstSome]
        | nil =>
          cases hda : cachedVoices.find? (fun v => v.default) with
          | some v => simp [firstSome]
          | none => cases cachedVoices.head? <;> simp [firstSome]

theorem isAlpha_ne_dash (c : Char) (h : c.isAlpha = true) : (c != '-') = true := by
  have hd : Char.isAlpha '-' = false := by decide
  simp only [bne_iff_ne, ne_eq]
  rintro rfl
  rw [hd] at h
  exact absurd h (by simp)

/-- On a tag of the usual form, the prefix test against a two-letter language part agrees with
equality of primary subtags. -/
theorem startsWith_eq_primarySubtag (lang : String) (x y : Char)
    (hform : usualTagForm lang = true) :
    startsWith lang (String.mk [x, y]) = (primarySubtag lang == String.mk [x, y]) := by
  obtain ⟨d⟩ := lang
  unfold usualTagForm at hform
  match d, hform with
  | [a, b], hform =>
    simp only [Bool.and_eq_true] at hform
    have ha := isAlpha_ne_dash a hform.1
    have hb := isAlpha_ne_dash b hform.2
    have htw : List.takeWhile (fun c => c != '-') [a, b] = [a, b] := by
      simp [List.takeWhile, ha, hb]
    rw [Bool.eq_iff_iff]
    simp only [startsWith, primarySubtag, htw]
    rw [beq_iff_eq, String.ext_iff]
    simp only [List.isPrefixOf, Bool.and_eq_true, beq_iff_eq, List.cons.injEq, and_true]
    constructor
    · rintro ⟨h1, h2⟩
      exact ⟨h1.symm, h2.symm⟩
    · rintro ⟨h1, h2⟩
      exact ⟨h1.symm, h2.symm⟩
  | a :: b :: c :: r, hform =>
    simp only [Bool.and_eq_true, beq_iff_eq] at hform
    have ha := isAlpha_ne_dash a hform.1.1
    have hb := isAlpha_ne_dash b hform.1.2
    have hc : (c != '-') = false := by simp [hform.2]
    have htw : List.takeWhile (fun c => c != '-') (a :: b :: c :: r) = [a, b] := by
      simp [List.takeWhile, ha, hb, hc]
    rw [Bool.eq_iff_iff]
    simp only [startsWith, primarySubtag, htw]
    rw [beq_iff_eq, String.ext_iff]
    simp only [List.isPrefixOf, Bool.and_eq_true, beq_iff_eq, List.cons.injEq, and_true]
    constructor
    · rintro ⟨h1, h2⟩
      exact ⟨h1.symm, h2.symm⟩
    · rintro ⟨h1, h2⟩
      exact ⟨h1.symm, h2.symm⟩

/-- For catalogs of usual-form tags and the two tags the script requests, `forLang` is the
list of voices with the requested primary subtag. -/
theorem forLang_eq_filter_matchesLanguage (cachedVoices : List Voice) (langTag : String)
    (hform : ∀ v ∈ cachedVoices, usualTagForm v.lang = true)
    (htag : langTag = "es-ES" ∨ langTag = "en-US") :
    forLang cachedVoices langTag = cachedVoices.filter (matchesLanguage langTag) := by
  unfold forLang
  apply List.filter_congr
  intro v hv
  rcases htag with rfl | rfl
  · have h1 : splitDashFirst "es-ES" = String.mk ['e', 's'] := by decide
    have h2 : primarySubtag "es-ES" = String.mk ['e', 's'] := by decide
    simp only [matchesLanguage, h1, h2]
    exact startsWith_eq_primarySubtag v.lang 'e' 's' (hform v hv)
  · have h1 : splitDashFirst "en-US" = String.mk ['e', 'n'] := by decide
    have h2 : primarySubtag "en-US" = String.mk ['e', 'n'] := by decide
    simp only [matchesLanguage, h1, h2]
    exact startsWith_eq_primarySubtag v.lang 'e' 'n' (hform v hv)

/-- C3: for a catalog whose language tags have the usual form (two letters, optionally
`-REGION`), a requested tag `es-ES` or `en-US` and an optional preferred voice id,
`selectBestVoice` returns the first result that exists among: the matching-language voice whose
identifier (`voiceURI`, else `name`) is the preferred id; the first matching-language default
voice; the first matching-language local voice; the first matching-language voice; the first
default voice of the catalog; the first voice of the catalog; else none.  On the catalog
`[A es-ES local, B es-MX default, C en-US default local]` with language `es` and no preference
it returns `B`. -/
theorem selectBestVoice_priority (cachedVoices : List Voice) (langTag : String)
    (preferredVoiceId : Option String)
    (hform : ∀ v ∈ cachedVoices, usualTagForm v.lang = true)
    (htag : langTag = "es-ES" ∨ langTag = "en-US") :
    selectBestVoice cachedVoices langTag preferredVoiceId
        = selectBestVoiceSpec cachedVoices langTag preferredVoiceId ∧
      selectBestVoice
          [⟨"es-ES", "A", "A", false, true⟩, ⟨"es-MX", "B", "B", true, false⟩,
           ⟨"en-US", "C", "C", true, true⟩] (getLangTag "es") none
        = some ⟨"es-MX", "B", "B", true, false⟩ := by
  refine ⟨?_, by decide⟩
  rw [selectBestVoice_eq_firstSome, forLang_eq_filter_matchesLanguage _ _ hform htag]
  rfl

/-- Witness for C3: an English request with a preferred voice on a three-voice catalog. -/
theorem selectBestVoice_priority_witness :
    selectBestVoice
        [⟨"es-ES", "A", "A", false, true⟩, ⟨"en-GB", "B", "B", true, false⟩,
         ⟨"en-US", "C", "C", false, true⟩] "en-US" (some "C")
      = selectBestVoiceSpec
        [⟨"es-ES", "A", "A", false, true⟩, ⟨"en-GB", "B", "B", true, false⟩,
         ⟨"en-US", "C", "C", false, true⟩] "en-US" (some "C") :=
  (selectBestVoice_priority
    [⟨"es-ES", "A", "A", false, true⟩, ⟨"en-GB", "B", "B", true, false⟩,
     ⟨"en-US", "C", "C", false, true⟩] "en-US" (some "C") (by decide) (Or.inr rfl)).1

/-- When `forLang` is not empty, the selector returns one of its voices. -/
theorem selectBestVoice_mem_forLang (cachedVoices : List Voice) (langTag : String)
    (preferredVoiceId : Option String) (hne : forLang cachedVoices langTag ≠ []) :
    ∃ r, selectBestVoice cachedVoices langTag preferredVoiceId = some r ∧
      r ∈ forLang cachedVoices langTag := by
  rw [selectBestVoice_eq_firstSome]
  generalize forLang cachedVoices langTag = m at hne ⊢
  have hpref : ∀ r, preferredAmong m preferredVoiceId = some r → r ∈ m := by
    intro r hr
    unfold preferredAmong at hr
    cases preferredVoiceId with
    | none => simp at hr
    | some p =>
      by_cases hp : p = ""
      · simp [hp] at hr
      · simp only [hp, if_false] at hr
        exact List.mem_of_find?_eq_some hr
  generalize preferredAmong m preferredVoiceId = pref at hpref ⊢
  cases pref with
  | some v => exact ⟨v, by simp [firstSome], hpref v rfl⟩
  | none =>
    cases hd : m.find? (fun v => v.default) with
    | some v => exact ⟨v, by simp [firstSome], List.mem_of_find?_eq_some hd⟩
    | none =>
      cases hl : m.find? (fun v => v.localService) with
      | some v => exact ⟨v, by simp [firstSome], List.mem_of_find?_eq_some hl⟩
      | none =>
        cases m with
        | nil => exact absurd rfl hne
        | cons v l => exact ⟨v, by simp [firstSome], List.mem_cons_self _ _⟩

/-- C10 (counterexample): with the catalog `[X esu-US default, Y es-ES]` and the request
`es-ES`, voice `X` is treated as matching although its primary subtag `esu` differs from the
requested `es`, and it is the voice returned although the catalog holds the `es` voice `Y`. -/
theorem forLang_primarySubtag_counterexample :
    forLang [⟨"esu-US", "X", "X", true, false⟩, ⟨"es-ES", "Y", "Y", false, false⟩] "es-ES"
      = [⟨"esu-US", "X", "X", true, false⟩, ⟨"es-ES", "Y", "Y", false, false⟩] ∧
    primarySubtag "esu-US" ≠ primarySubtag "es-ES" ∧
    selectBestVoice [⟨"esu-US", "X", "X", true, false⟩, ⟨"es-ES", "Y", "Y", false, false⟩]
      "es-ES" none = some ⟨"esu-US", "X", "X", true, false⟩ := by
  decide

/-- C10 (amended): for every catalog and requested tag, the voices `selectBestVoice` treats as
matching-language are exactly those whose language tag starts with the requested tag's primary
subtag (the text before the first `'-'`); every voice whose primary subtag equals the requested
one is among them; and whenever the catalog contains a voice whose tag starts with that
subtag, a voice is returned, it belongs to the catalog and its tag starts with that subtag. -/
theorem forLang_startsWith (cachedVoices : List Voice) (langTag : String)
    (preferredVoiceId : Option String) :
    (∀ v, v ∈ forLang cachedVoices langTag ↔
      v ∈ cachedVoices ∧ (primarySubtag langTag).data <+: v.lang.data) ∧
    (∀ v ∈ cachedVoices, primarySubtag v.lang = primarySubtag langTag →
      v ∈ forLang cachedVoices langTag) ∧
    ((∃ v ∈ cachedVoices, (primarySubtag langTag).data <+: v.lang.data) →
      ∃ r, selectBestVoice cachedVoices langTag preferredVoiceId = some r ∧
        r ∈ cachedVoices ∧ (primarySubtag langTag).data <+: r.lang.data) := by
  have hmem : ∀ v, v ∈ forLang cachedVoices langTag ↔
      v ∈ cachedVoices ∧ (primarySubtag langTag).data <+: v.lang.data := by
    intro v
    simp [forLang, startsWith, splitDashFirst, primarySubtag, List.mem_filter]
  refine ⟨hmem, ?_, ?_⟩
  · intro v hv heq
    rw [hmem]
    refine ⟨hv, ?_⟩
    rw [← heq]
    exact List.takeWhile_prefix _
  · rintro ⟨v, hv, hpre⟩
    have hne : forLang cachedVoices langTag ≠ [] := by
      intro h
      have := (hmem v).2 ⟨hv, hpre⟩
      rw [h] at this
      simp at this
    obtain ⟨r, hr, hrm⟩ := selectBestVoice_mem_forLang cachedVoices langTag preferredVoiceId hne
    exact ⟨r, hr, ((hmem r).1 hrm).1, ((hmem r).1 hrm).2⟩

/-- Witness for C10 (amended) on a two-voice catalog. -/
theorem forLang_startsWith_witness :
    (⟨"es-ES", "Y", "Y", false, false⟩ : Voice) ∈
        forLang [⟨"esu-US", "X", "X", true, false⟩, ⟨"es-ES", "Y", "Y", false, false⟩] "es-ES" ∧
    ∃ r, selectBestVoice [⟨"esu-US", "X", "X", true, false⟩, ⟨"es-ES", "Y", "Y", false, false⟩]
        "es-ES" none = some r ∧
      r ∈ [(⟨"esu-US", "X", "X", true, false⟩ : Voice), ⟨"es-ES", "Y", "Y", false, false⟩] ∧
      (primarySubtag "es-ES").data <+: r.lang.data :=
  ⟨(forLang_startsWith [⟨"esu-US", "X", "X", true, false⟩, ⟨"es-ES", "Y", "Y", false, false⟩]
      "es-ES" none).2.1 ⟨"es-ES", "Y", "Y", false, false⟩ (by decide) (by decide),
    (forLang_startsWith [⟨"esu-US", "X", "X", true, false⟩, ⟨"es-ES", "Y", "Y", false, false⟩]
      "es-ES" none).2.2 ⟨⟨"es-ES", "Y", "Y", false, false⟩, by decide, by decide⟩⟩

end EclipseTimer
